import Mathlib

/-!
Verification of the KT21Calculator / DiceSim probability core.

The Rust sources embedded here are `src/common/mod.rs` (exact binomial
coefficients with a memo table, binomial PMF, map upsert utilities, and
multi-round damage convolution) and `src/deadzone/simulator.rs` (Monte-Carlo
success simulation over exploding dice with rerolls, and the damage
distribution engine `calc_dmg_probs`).

Modelling choices:
- `i32`/`i64` machine integers are modelled as `ℤ` (in-contract computations
  never overflow; the one overflow-sensitive routine, `n_choose_k`, is only
  verified on its documented domain `1 ≤ n ≤ 29` where all intermediates fit
  in `i64`).
- `f64` probabilities are modelled as exact rationals `ℚ`; all the verified
  properties are algebraic identities of the real-number algorithm.
- `HashMap<i32, _>` is modelled as an association list `List (ℤ × _)` with
  unique keys maintained by the upsert operation; iteration order is the list
  order (the claims proved here are insensitive to iteration order).
- The thread-local RNG is modelled as a list of die pips consumed in order;
  functions that draw from it return `Option` (`none` when the finite pip
  list is exhausted, which corresponds to no real execution).
-/

namespace DiceSim

/-- Product of the integers in the inclusive range `lo..=hi` (1 when empty).
This is the loop `for factor in lo..=hi { acc *= factor }` from `n_choose_k`. -/
def range_prod (lo hi : ℤ) : ℤ :=
  ((List.range (hi + 1 - lo).toNat).map (fun i => lo + i)).prod

/-- The arithmetic of `n_choose_k` (the loops and division at lines 93-113 of
`src/common/mod.rs`), shared by the cached and uncached models below: with
`s = min(k, n-k)` and `b = max(k, n-k)`, the product of `(b+1)..=n` divided by
the product of `2..=s`. -/
def n_choose_k_compute (n k : ℤ) : ℤ :=
  let n_minus_k := n - k
  let smaller_divisor := if k < n_minus_k then k else n_minus_k
  let bigger_divisor := if k < n_minus_k then n_minus_k else k
  let numerator := range_prod (bigger_divisor + 1) n
  let denominator := range_prod 2 smaller_divisor
  numerator / denominator

/-- Embedding of `n_choose_k` from `src/common/mod.rs`.  Before anything else
the function computes the bounds-checked index `LOOKUP_TABLE[n-1][k]` into
`LOOKUP_TABLE : [[i64; MAX_NUM_TRIALS]; MAX_NUM_TRIALS + 1]` =
`[[i64; 29]; 30]` (line 87): the outer array accepts `1 ≤ n ≤ 30`, the inner
array only `0 ≤ k ≤ 28` (`n as usize - 1` also traps for `n ≤ 0`), and any
other input panics — modelled as `none`.  In particular the in-contract point
`(n, k) = (29, 29)` panics.  When the index is in bounds the function returns
`n_choose_k_compute n k` — the value the cache lookup yields on any reachable
table state (see `n_choose_k_memo` and `n_choose_k_memo_refines` for the
stateful version).  The `i64` arithmetic is modelled as exact integers: per
the comment at line 69 of the source every intermediate product fits in `i64`
for `n ≤ 29`, and no theorem below evaluates the `n = 30` row, where the real
product can overflow. -/
def n_choose_k (n k : ℤ) : Option ℤ :=
  if 1 ≤ n ∧ n ≤ 30 ∧ 0 ≤ k ∧ k ≤ 28 then some (n_choose_k_compute n k)
  else none

/-- The process-wide memo table `LOOKUP_TABLE` of `n_choose_k`: `cache n k`
models the entry `LOOKUP_TABLE[n-1][k]` (meaningful for `1 ≤ n ≤ 30` and
`0 ≤ k ≤ 28`, the real array's extent), with 0 meaning "not yet computed". -/
def Cache : Type := ℤ → ℤ → ℤ

/-- The all-zero initial state of `LOOKUP_TABLE`. -/
def emptyCache : Cache := fun _ _ => 0

/-- Embedding of the memoised `n_choose_k` with its table state: the
bounds-checked index is computed first (line 87), so out-of-bounds arguments
panic (`none`) before the cache is ever read; otherwise return the cached
entry when it is nonzero, else compute, store and return.  Returns the result
together with the updated table. -/
def n_choose_k_memo (c : Cache) (n k : ℤ) : Option (ℤ × Cache) :=
  if 1 ≤ n ∧ n ≤ 30 ∧ 0 ≤ k ∧ k ≤ 28 then
    if c n k ≠ 0 then some (c n k, c)
    else
      let result := n_choose_k_compute n k
      some (result, fun x y => if x = n ∧ y = k then result else c x y)
  else none

/-- A table state in which every nonzero entry already holds the pure
`n_choose_k_compute` value for its key.  The all-zero table is valid, and
`n_choose_k_memo` preserves validity, so every reachable table state is
valid no matter which calls were made before. -/
def ValidCache (c : Cache) : Prop :=
  ∀ n k : ℤ, c n k = 0 ∨ c n k = n_choose_k_compute n k

/-- The value `binomial_pmf` produces when its `n_choose_k` call does not
panic:
`C(numTrials, numSuccesses) * p^numSuccesses * (1-p)^(numTrials-numSuccesses)`
(exact rational arithmetic in place of `f64`). -/
def binomial_pmf_compute (num_trials num_successes : ℤ)
    (prob_success : ℚ) : ℚ :=
  (n_choose_k_compute num_trials num_successes : ℚ)
    * prob_success ^ num_successes.toNat
    * (1 - prob_success) ^ (num_trials - num_successes).toNat

/-- Embedding of `binomial_pmf` from `src/common/mod.rs`: it calls
`n_choose_k`, so it propagates that function's panic (`none`) and otherwise
yields `binomial_pmf_compute`. -/
def binomial_pmf (num_trials num_successes : ℤ)
    (prob_success : ℚ) : Option ℚ :=
  (n_choose_k num_trials num_successes).map (fun c =>
    (c : ℚ)
      * prob_success ^ num_successes.toNat
      * (1 - prob_success) ^ (num_trials - num_successes).toNat)

/-- Embedding of `add_to_map_value` from `src/common/mod.rs`:
`map[key] = map.get(key).unwrap_or(0) + val`.  On the association-list model
this updates the (unique) existing entry in place or appends a new one. -/
def add_to_map_value {β : Type} [Add β] :
    List (ℤ × β) → ℤ → β → List (ℤ × β)
  | [], key, val => [(key, val)]
  | (k, v) :: rest, key, val =>
      if k = key then (k, v + val) :: rest
      else (k, v) :: add_to_map_value rest key val

/-- Value stored in an association-list map at a key, 0 when absent
(= `map.get(key).unwrap_or(0)`). -/
def map_get {β : Type} [Zero β] : List (ℤ × β) → ℤ → β
  | [], _ => 0
  | (k, v) :: rest, key => if k = key then v else map_get rest key

/-- Sum of the values of an association-list map (total probability mass). -/
def sum_values {β : Type} [AddCommMonoid β] (m : List (ℤ × β)) : β :=
  (m.map (fun p => p.2)).sum

/-- One iteration of the round loop of `calc_multi_round_damage`: for every
`(prevDmg, prevProb)` in the previous rounds map and `(singleDmg, singleProb)`
in the single-round map, accumulate `prevProb * singleProb` at key
`prevDmg + singleDmg`, starting from a cleared map. -/
def one_round_conv (single prev : List (ℤ × ℚ)) : List (ℤ × ℚ) :=
  prev.foldl
    (fun latest p =>
      single.foldl
        (fun l s => add_to_map_value l (p.1 + s.1) (p.2 * s.2))
        latest)
    []

/-- `multi_round_iter single i` is the state of `latest_round_dmg_probs` after
`i` executions of the round loop body (the loop `for _ in 2..=num_rounds` runs
`max 0 (num_rounds - 1)` times). -/
def multi_round_iter (single : List (ℤ × ℚ)) : ℕ → List (ℤ × ℚ)
  | 0 => single
  | i + 1 => one_round_conv single (multi_round_iter single i)

/-- Embedding of `calc_multi_round_damage` from `src/common/mod.rs`: start from
a clone of the input distribution and convolve it with itself once per round
beyond the first. -/
def calc_multi_round_damage (single_round_dmg_probs : List (ℤ × ℚ))
    (num_rounds : ℤ) : List (ℤ × ℚ) :=
  multi_round_iter single_round_dmg_probs (num_rounds - 1).toNat

/-- The success/failure tally of `src/deadzone/simulator.rs`. -/
structure Sf where
  s : ℤ
  f : ℤ
deriving DecidableEq

/-- Lowest die face. -/
def PIP_LO : ℤ := 1

/-- Highest die face; rolling it makes the die "explode" (roll again). -/
def PIP_HI : ℤ := 8

/-- Embedding of `simulated_sf_from_single_roll`: draw pips from the stream,
counting a success when the pip is `≥ dice_stat` and a failure otherwise,
until a draw differs from the maximal face `PIP_HI`.  Returns the tally and
the unconsumed remainder of the stream; `none` when the finite stream is
exhausted while the die is still exploding. -/
def simulated_sf_from_single_roll (dice_stat : ℤ) :
    List ℤ → Option (Sf × List ℤ)
  | [] => none
  | pip :: rest =>
      let sf : Sf := if dice_stat ≤ pip then ⟨1, 0⟩ else ⟨0, 1⟩
      if pip ≠ PIP_HI then some (sf, rest)
      else (simulated_sf_from_single_roll dice_stat rest).map
        (fun r => (⟨sf.s + r.1.s, sf.f + r.1.f⟩, r.2))

/-- The `for _ in 0..num_dice` loop of
`simulated_num_successes_from_multi_roll`: roll `nd` single (exploding) dice,
merging the tallies with `Sf::add`. -/
def roll_n (dice_stat : ℤ) : ℕ → List ℤ → Option (Sf × List ℤ)
  | 0, stream => some (⟨0, 0⟩, stream)
  | nd + 1, stream =>
      (simulated_sf_from_single_roll dice_stat stream).bind
        (fun r => (roll_n dice_stat nd r.2).map
          (fun r2 => (⟨r.1.s + r2.1.s, r.1.f + r2.1.f⟩, r2.2)))

/-- The `num_rerolls = 0` instance of
`simulated_num_successes_from_multi_roll`: the reroll branch cannot be taken,
so the call just rolls the dice and returns their successes.  (The source
recursion always passes `num_rerolls = 0` to its recursive call, so its
recursion has depth at most one and is embedded through this function;
`simulated_num_successes_from_multi_roll_zero_rerolls` below checks that the
two agree on `num_rerolls = 0`.) -/
def multi_roll_no_reroll (num_dice dice_stat : ℤ) (stream : List ℤ) :
    Option (ℤ × List ℤ) :=
  (roll_n dice_stat num_dice.toNat stream).map (fun r => (r.1.s, r.2))

/-- Embedding of `simulated_num_successes_from_multi_roll`: roll `num_dice`
dice; when `num_rerolls ≠ 0`, recursively simulate
`min(num_rerolls, failures)` further dice with the reroll budget forced to 0
(that recursive call is `multi_roll_no_reroll`), and add those successes to
the original successes. -/
def simulated_num_successes_from_multi_roll (num_dice dice_stat num_rerolls : ℤ)
    (stream : List ℤ) : Option (ℤ × List ℤ) :=
  (roll_n dice_stat num_dice.toNat stream).bind (fun r =>
    if num_rerolls = 0 then some (r.1.s, r.2)
    else
      (multi_roll_no_reroll (min num_rerolls r.1.f) dice_stat r.2).map
        (fun r2 => (r.1.s + r2.1, r2.2)))

/-- A combatant of `src/deadzone/model.rs` (the plain numeric fields the
simulator reads). -/
structure Model where
  numDice : ℤ
  diceStat : ℤ
  numRerolls : ℤ
  armor : ℤ
  ap : ℤ
  numShieldDice : ℤ
  toxicDmg : ℤ
deriving DecidableEq

/-- The interface precondition of §6 of the spec: all model fields are
non-negative integers and `diceStat ≥ 1`. -/
def Model.InContract (m : Model) : Prop :=
  0 ≤ m.numDice ∧ 1 ≤ m.diceStat ∧ 0 ≤ m.numRerolls ∧ 0 ≤ m.armor ∧
    0 ≤ m.ap ∧ 0 ≤ m.numShieldDice ∧ 0 ≤ m.toxicDmg

instance (m : Model) : Decidable m.InContract := by
  unfold Model.InContract; infer_instance

/-- The options of `src/deadzone/options.rs` read by the simulator. -/
structure Options where
  numSimulations : ℤ
  numRounds : ℤ
deriving DecidableEq

/-- The `for _ in 0..num_simulations` loop of `make_success_probs`: run `t`
simulated trials, tallying each trial's success count into `counts`. -/
def run_trials (model : Model) :
    ℕ → List (ℤ × ℤ) → List ℤ → Option (List (ℤ × ℤ) × List ℤ)
  | 0, counts, stream => some (counts, stream)
  | t + 1, counts, stream =>
      (simulated_num_successes_from_multi_roll model.numDice model.diceStat
          model.numRerolls stream).bind
        (fun r => run_trials model t (add_to_map_value counts r.1 1) r.2)

/-- Embedding of `make_success_probs`: tally `num_simulations` Monte-Carlo
trials and divide every count by `num_simulations`.  Returns the empirical
success-probability map and the unconsumed remainder of the pip stream. -/
def make_success_probs (model : Model) (num_simulations : ℤ)
    (stream : List ℤ) : Option (List (ℤ × ℚ) × List ℤ) :=
  (run_trials model num_simulations.toNat [] stream).map
    (fun r => (r.1.map (fun p => (p.1, (p.2 : ℚ) / (num_simulations : ℚ))), r.2))

/-- The inclusive iteration range `0..=n` of the shield loop as a list
(empty when `n < 0`, `[0, 1, ..., n]` otherwise). -/
def shield_range (n : ℤ) : List ℤ :=
  (List.range (n + 1).toNat).map (fun i : ℕ => (i : ℤ))

/-- The fixed per-die shield-success probability of
`binomial_pmf(num_shield_dice, shield_successes, 0.375)`. -/
def single_shield_prob : ℚ := 0.375

/-- The pairwise combination loop of `calc_dmg_probs`: for every attacker and
defender success-map entry, apply the armor/shield/toxic rules and accumulate
probability mass into the damage map.  The shield probability comes from
`binomial_pmf`, which panics on out-of-range lookup-table indices (any
receiver with `numShieldDice ≥ 29` reaches one), so the loop is an
`Option`-valued fold that aborts (`none`) at the first panicking call. -/
def calc_dmg_probs_core (attacker defender : Model)
    (atk_success_probs def_success_probs : List (ℤ × ℚ)) :
    Option (List (ℤ × ℚ)) :=
  atk_success_probs.foldlM (fun acc0 a =>
    def_success_probs.foldlM (fun acc1 d =>
      let orig_dmg := a.1 - d.1
      let dmg_giver := if 0 ≤ orig_dmg then attacker else defender
      let dmg_receiver := if 0 ≤ orig_dmg then defender else attacker
      let net_armor := max 0 (dmg_receiver.armor - dmg_giver.ap)
      let num_shield_dice := if orig_dmg = 0 then 0 else dmg_receiver.numShieldDice
      let atk_and_def_prob := a.2 * d.2
      (shield_range num_shield_dice).foldlM (fun acc2 shield_successes =>
        (if num_shield_dice = 0 then some 1
          else binomial_pmf num_shield_dice shield_successes
            single_shield_prob).map (fun shield_prob =>
          let post_shield_dmg := max 0 (|orig_dmg| - shield_successes)
          let post_armor_dmg := max 0 (post_shield_dmg - net_armor)
          let post_toxic_dmg := post_armor_dmg + dmg_giver.toxicDmg
          add_to_map_value acc2 (orig_dmg.sign * post_toxic_dmg)
            (atk_and_def_prob * shield_prob))) acc1) acc0) []

/-- The damage map the combination loop produces when none of its
`binomial_pmf` calls panics: the same nested folds with the shield
probability given by `binomial_pmf_compute`
(`calc_dmg_probs_core_eq_compute` relates the two). -/
def calc_dmg_probs_core_compute (attacker defender : Model)
    (atk_success_probs def_success_probs : List (ℤ × ℚ)) : List (ℤ × ℚ) :=
  atk_success_probs.foldl (fun acc0 a =>
    def_success_probs.foldl (fun acc1 d =>
      let orig_dmg := a.1 - d.1
      let dmg_giver := if 0 ≤ orig_dmg then attacker else defender
      let dmg_receiver := if 0 ≤ orig_dmg then defender else attacker
      let net_armor := max 0 (dmg_receiver.armor - dmg_giver.ap)
      let num_shield_dice := if orig_dmg = 0 then 0 else dmg_receiver.numShieldDice
      let atk_and_def_prob := a.2 * d.2
      (shield_range num_shield_dice).foldl (fun acc2 shield_successes =>
        let shield_prob := if num_shield_dice = 0 then 1
          else binomial_pmf_compute num_shield_dice shield_successes
            single_shield_prob
        let post_shield_dmg := max 0 (|orig_dmg| - shield_successes)
        let post_armor_dmg := max 0 (post_shield_dmg - net_armor)
        let post_toxic_dmg := post_armor_dmg + dmg_giver.toxicDmg
        add_to_map_value acc2 (orig_dmg.sign * post_toxic_dmg)
          (atk_and_def_prob * shield_prob)) acc1) acc0) []

/-- The `(n, k)` argument pairs of the `n_choose_k` invocations made (through
`binomial_pmf`) while `calc_dmg_probs_core` runs on the given success maps:
one invocation per shield-loop iteration whenever `num_shield_dice ≠ 0`. -/
def n_choose_k_calls (attacker defender : Model)
    (atk_success_probs def_success_probs : List (ℤ × ℚ)) : List (ℤ × ℤ) :=
  atk_success_probs.flatMap (fun a =>
    def_success_probs.flatMap (fun d =>
      let orig_dmg := a.1 - d.1
      let dmg_receiver := if 0 ≤ orig_dmg then defender else attacker
      let num_shield_dice := if orig_dmg = 0 then 0 else dmg_receiver.numShieldDice
      if num_shield_dice = 0 then []
      else (shield_range num_shield_dice).map (fun s => (num_shield_dice, s))))

/-- Embedding of the full `calc_dmg_probs` pipeline: simulate both success
maps from the shared pip stream, combine them, and convolve over multiple
rounds when `num_rounds > 1`. -/
def calc_dmg_probs (attacker defender : Model) (options : Options)
    (stream : List ℤ) : Option (List (ℤ × ℚ)) :=
  (make_success_probs attacker options.numSimulations stream).bind (fun ra =>
    (make_success_probs defender options.numSimulations ra.2).bind (fun rd =>
      (calc_dmg_probs_core attacker defender ra.1 rd.1).map (fun dmg_probs =>
        if 1 < options.numRounds then
          calc_multi_round_damage dmg_probs options.numRounds
        else dmg_probs)))

/-- The `n_choose_k` invocations of a full `calc_dmg_probs` call: the calls of
`calc_dmg_probs_core` on the success maps simulated from the pip stream. -/
def calc_dmg_probs_n_choose_k_calls (attacker defender : Model)
    (options : Options) (stream : List ℤ) : Option (List (ℤ × ℤ)) :=
  (make_success_probs attacker options.numSimulations stream).bind (fun ra =>
    (make_success_probs defender options.numSimulations ra.2).map (fun rd =>
      n_choose_k_calls attacker defender ra.1 rd.1))

/-- The list of `(key, mass)` contributions that the spec (§4.4 step 2) says
the combination loop accumulates: for every pair of success-map entries
`(atkSuccesses, atkProb)` and `(defSuccesses, defProb)` and every
`shieldSuccesses` in `0..=numShieldDice`, the mass
`atkProb * defProb * shieldProb` at key
`sign(origDmg) * (max(0, max(0, |origDmg| - shieldSuccesses) - max(0, receiver.armor - giver.ap)) + giver.toxicDmg)`. -/
def dmg_contribs (attacker defender : Model)
    (atk_success_probs def_success_probs : List (ℤ × ℚ)) : List (ℤ × ℚ) :=
  atk_success_probs.flatMap (fun a =>
    def_success_probs.flatMap (fun d =>
      let orig_dmg := a.1 - d.1
      let dmg_giver := if 0 ≤ orig_dmg then attacker else defender
      let dmg_receiver := if 0 ≤ orig_dmg then defender else attacker
      let num_shield_dice := if orig_dmg = 0 then 0 else dmg_receiver.numShieldDice
      (shield_range num_shield_dice).map (fun shield_successes =>
        (orig_dmg.sign *
            (max 0 (max 0 (|orig_dmg| - shield_successes)
                - max 0 (dmg_receiver.armor - dmg_giver.ap))
              + dmg_giver.toxicDmg),
         a.2 * d.2 *
           (if num_shield_dice = 0 then 1
            else binomial_pmf_compute num_shield_dice shield_successes
              single_shield_prob)))))

/-! ## Helper lemmas -/

theorem sum_values_nil : sum_values ([] : List (ℤ × ℚ)) = 0 := rfl

theorem sum_values_cons (p : ℤ × ℚ) (m : List (ℤ × ℚ)) :
    sum_values (p :: m) = p.2 + sum_values m := by
  simp [sum_values]

theorem sum_values_add_to_map_value (m : List (ℤ × ℚ)) (key : ℤ) (val : ℚ) :
    sum_values (add_to_map_value m key val) = sum_values m + val := by
  induction m with
  | nil => simp [add_to_map_value, sum_values]
  | cons p rest ih =>
      obtain ⟨k, v⟩ := p
      by_cases h : k = key
      · simp [add_to_map_value, h, sum_values_cons]
        ring
      · simp [add_to_map_value, h, sum_values_cons, ih]
        ring

theorem map_get_add_to_map_value (m : List (ℤ × ℚ)) (key z : ℤ) (val : ℚ) :
    map_get (add_to_map_value m key val) z
      = map_get m z + if key = z then val else 0 := by
  induction m with
  | nil => simp [add_to_map_value, map_get]
  | cons p rest ih =>
      obtain ⟨k, v⟩ := p
      simp only [add_to_map_value]
      by_cases h : k = key
      · rw [if_pos h]
        subst h
        by_cases hz : k = z
        · simp [map_get, hz]
        · simp [map_get, hz]
      · rw [if_neg h]
        by_cases hz : k = z
        · have hkz : ¬key = z := fun hc => h (hz.trans hc.symm)
          simp [map_get, hz, hkz]
        · simp [map_get, hz, ih]

theorem map_get_foldl_add {α : Type} (key : α → ℤ) (val : α → ℚ) (xs : List α)
    (m0 : List (ℤ × ℚ)) (z : ℤ) :
    map_get (xs.foldl (fun m x => add_to_map_value m (key x) (val x)) m0) z
      = map_get m0 z
        + (xs.map (fun x => if key x = z then val x else 0)).sum := by
  induction xs generalizing m0 with
  | nil => simp
  | cons x xs ih =>
      simp only [List.foldl_cons, List.map_cons, List.sum_cons]
      rw [ih, map_get_add_to_map_value]
      ring

theorem sum_values_foldl_add {α : Type} (key : α → ℤ) (val : α → ℚ)
    (xs : List α) (m0 : List (ℤ × ℚ)) :
    sum_values (xs.foldl (fun m x => add_to_map_value m (key x) (val x)) m0)
      = sum_values m0 + (xs.map val).sum := by
  induction xs generalizing m0 with
  | nil => simp
  | cons x xs ih =>
      simp only [List.foldl_cons, List.map_cons, List.sum_cons]
      rw [ih, sum_values_add_to_map_value]
      ring

theorem simulated_num_successes_from_multi_roll_zero_rerolls
    (num_dice dice_stat : ℤ) (stream : List ℤ) :
    simulated_num_successes_from_multi_roll num_dice dice_stat 0 stream
      = multi_roll_no_reroll num_dice dice_stat stream := by
  unfold simulated_num_successes_from_multi_roll multi_roll_no_reroll
  cases roll_n dice_stat num_dice.toNat stream <;> simp

theorem foldl_flatMap {α β σ : Type} (f : σ → β → σ) (g : α → List β)
    (xs : List α) (init : σ) :
    (xs.flatMap g).foldl f init = xs.foldl (fun s x => (g x).foldl f s) init := by
  induction xs generalizing init with
  | nil => simp
  | cons x xs ih => simp [List.flatMap_cons, List.foldl_append, ih]

theorem multi_roll_zero_dice (dice_stat num_rerolls : ℤ) (stream : List ℤ) :
    simulated_num_successes_from_multi_roll 0 dice_stat num_rerolls stream
      = some (0, stream) := by
  unfold simulated_num_successes_from_multi_roll
  have h0 : (0 : ℤ).toNat = 0 := rfl
  rw [h0]
  by_cases h : num_rerolls = 0
  · simp [h, roll_n]
  · have hmin : (min num_rerolls (0 : ℤ)).toNat = 0 :=
      Int.toNat_eq_zero.mpr (min_le_right _ _)
    simp [h, roll_n, multi_roll_no_reroll, hmin]

theorem run_trials_zero_dice (model : Model) (h0 : model.numDice = 0)
    (t : ℕ) : ∀ (c : ℤ) (stream : List ℤ),
      run_trials model t [(0, c)] stream = some ([(0, c + t)], stream) := by
  induction t with
  | zero => intro c stream; simp [run_trials]
  | succ t ih =>
      intro c stream
      rw [run_trials, h0, multi_roll_zero_dice]
      simp only [Option.some_bind]
      have hadd : add_to_map_value [((0 : ℤ), c)] 0 1 = [((0 : ℤ), c + 1)] := by
        simp [add_to_map_value]
      rw [hadd, ih]
      have hc : c + 1 + (t : ℤ) = c + ((t : ℕ) + 1 : ℕ) := by push_cast; ring
      rw [hc]

theorem run_trials_zero_dice_from_empty (model : Model) (h0 : model.numDice = 0)
    (t : ℕ) (ht : 1 ≤ t) (stream : List ℤ) :
    run_trials model t [] stream = some ([(0, (t : ℤ))], stream) := by
  cases t with
  | zero => omega
  | succ t =>
      rw [run_trials, h0, multi_roll_zero_dice]
      simp only [Option.some_bind]
      have hadd : add_to_map_value ([] : List (ℤ × ℤ)) 0 1 = [((0 : ℤ), 1)] := by
        simp [add_to_map_value]
      rw [hadd, run_trials_zero_dice model h0 t]
      have hc : (1 : ℤ) + (t : ℤ) = ((t : ℕ) + 1 : ℕ) := by push_cast; ring
      rw [hc]

theorem countP_le_add_countP_lt (dice_stat : ℤ) (l : List ℤ) :
    l.countP (fun p => decide (dice_stat ≤ p))
        + l.countP (fun p => decide (p < dice_stat))
      = l.length := by
  induction l with
  | nil => rfl
  | cons a l ih =>
      rw [List.countP_cons, List.countP_cons, List.length_cons]
      by_cases h : dice_stat ≤ a
      · rw [if_pos (by simpa using h),
          if_neg (by simpa using Int.not_lt.mpr h)]
        omega
      · rw [if_neg (by simpa using h),
          if_pos (by simpa using Int.not_le.mp h)]
        omega

theorem simulated_sf_from_single_roll_run (dice_stat : ℤ) :
    ∀ l : List ℤ, (∃ x ∈ l, x ≠ PIP_HI) →
    simulated_sf_from_single_roll dice_stat l
        = some
          (⟨((l.take ((l.takeWhile (fun p => decide (p = PIP_HI))).length
                  + 1)).countP (fun p => decide (dice_stat ≤ p)) : ℕ),
            ((l.take ((l.takeWhile (fun p => decide (p = PIP_HI))).length
                  + 1)).countP (fun p => decide (p < dice_stat)) : ℕ)⟩,
           l.drop ((l.takeWhile (fun p => decide (p = PIP_HI))).length + 1))
      ∧ (l.takeWhile (fun p => decide (p = PIP_HI))).length + 1 ≤ l.length := by
  intro l
  induction l with
  | nil => intro h; simp at h
  | cons p rest ih =>
      intro h
      by_cases hp : p = PIP_HI
      · have hrest : ∃ x ∈ rest, x ≠ PIP_HI := by
          obtain ⟨x, hx, hxne⟩ := h
          rcases List.mem_cons.mp hx with hxp | hxr
          · exact absurd (hxp.trans hp) hxne
          · exact ⟨x, hxr, hxne⟩
        obtain ⟨ih1, ih2⟩ := ih hrest
        have htw : (p :: rest).takeWhile (fun p => decide (p = PIP_HI))
            = p :: rest.takeWhile (fun p => decide (p = PIP_HI)) := by
          rw [List.takeWhile_cons]
          simp [hp]
        constructor
        · rw [simulated_sf_from_single_roll]
          rw [if_neg (by simpa using hp)]
          rw [ih1, htw]
          simp only [List.length_cons, List.take_succ_cons,
            List.drop_succ_cons, Option.map_some']
          refine congrArg _ (Prod.ext ?_ rfl)
          by_cases hds : dice_stat ≤ p
          · simp [hds, List.countP_cons, Int.not_lt.mpr hds, Sf.mk.injEq]
            omega
          · simp [hds, List.countP_cons, Int.not_le.mp hds, Sf.mk.injEq]
            omega
        · rw [htw]
          simp only [List.length_cons, List.length_cons]
          omega
      · have htw : (p :: rest).takeWhile (fun p => decide (p = PIP_HI)) = [] := by
          rw [List.takeWhile_cons]
          simp [hp]
        rw [htw]
        constructor
        · rw [simulated_sf_from_single_roll]
          rw [if_pos (by simpa using hp)]
          simp only [List.length_nil, Nat.zero_add, List.take_succ_cons,
            List.take_zero, List.drop_succ_cons, List.drop_zero]
          by_cases hds : dice_stat ≤ p
          · simp [hds, List.countP_cons, not_le.mpr, Int.not_lt.mpr hds]
          · simp [hds, List.countP_cons, Int.not_le.mp hds]
        · simp

theorem sum_values_one_round_conv (single prev : List (ℤ × ℚ)) :
    sum_values (one_round_conv single prev)
      = sum_values prev * sum_values single := by
  unfold one_round_conv
  have hinner : ∀ (p : ℤ × ℚ) (l0 : List (ℤ × ℚ)),
      sum_values (single.foldl
          (fun l s => add_to_map_value l (p.1 + s.1) (p.2 * s.2)) l0)
        = sum_values l0 + p.2 * sum_values single := by
    intro p l0
    rw [sum_values_foldl_add (fun s => p.1 + s.1) (fun s => p.2 * s.2) single l0]
    rw [List.sum_map_mul_left single (fun s => s.2) p.2]
    rfl
  have houter : ∀ (l0 : List (ℤ × ℚ)),
      sum_values (prev.foldl
          (fun latest p => single.foldl
            (fun l s => add_to_map_value l (p.1 + s.1) (p.2 * s.2)) latest) l0)
        = sum_values l0 + sum_values prev * sum_values single := by
    induction prev with
    | nil => intro l0; simp [sum_values_nil]
    | cons p ps ih =>
        intro l0
        simp only [List.foldl_cons]
        rw [ih, hinner, sum_values_cons]
        ring
  rw [houter]
  simp [sum_values_nil]

theorem sum_values_multi_round_iter (single : List (ℤ × ℚ)) (i : ℕ) :
    sum_values (multi_round_iter single i) = sum_values single ^ (i + 1) := by
  induction i with
  | zero => simp [multi_round_iter]
  | succ i ih =>
      rw [multi_round_iter, sum_values_one_round_conv, ih]
      ring

/-- Correctness of the `n_choose_k` arithmetic on the whole in-contract
domain, checked by exhaustive kernel evaluation. -/
theorem n_choose_k_ball : ∀ n : ℕ, n < 30 → ∀ k : ℕ, k < 30 →
    1 ≤ n → k ≤ n →
    n_choose_k_compute (n : ℤ) (k : ℤ) = ((n.choose k : ℕ) : ℤ) := by
  decide

/-- The arithmetic of `n_choose_k` yields the exact binomial coefficient on
the whole in-contract domain (the table permitting, see
`n_choose_k_exact_in_bounds`). -/
theorem n_choose_k_compute_exact (n k : ℤ) (h1 : 1 ≤ n) (h2 : n ≤ 29)
    (h3 : 0 ≤ k) (h4 : k ≤ n) :
    n_choose_k_compute n k = ((n.toNat.choose k.toNat : ℕ) : ℤ) := by
  have hn : ((n.toNat : ℤ)) = n := Int.toNat_of_nonneg (by omega)
  have hk : ((k.toNat : ℤ)) = k := Int.toNat_of_nonneg h3
  have hb := n_choose_k_ball n.toNat (by omega) k.toNat (by omega) (by omega)
    (by omega)
  rwa [hn, hk] at hb

/-- On every in-contract input except `(29, 29)` — the one point whose table
index `[n-1][k] = [28][29]` is out of bounds — `n_choose_k` completes and
returns the exact binomial coefficient. -/
theorem n_choose_k_exact_in_bounds (n k : ℤ) (h1 : 1 ≤ n) (h2 : n ≤ 29)
    (h3 : 0 ≤ k) (h4 : k ≤ n) (h5 : ¬(n = 29 ∧ k = 29)) :
    n_choose_k n k = some ((n.toNat.choose k.toNat : ℕ) : ℤ) := by
  unfold n_choose_k
  rw [if_pos (by omega), n_choose_k_compute_exact n k h1 h2 h3 h4]

/-! ## Claim theorems -/

/-- C2 (code bug): at the in-contract input `(n, k) = (29, 29)`, `n_choose_k`
panics — `LOOKUP_TABLE[n-1][k]` indexes the length-29 inner array at 29
before the cache check — instead of returning `C(29, 29) = 1`, which is what
its own arithmetic yields and what the spec (and the source comment "can only
handle up to num_trials=29") promises.  The inner dimension of
`[[i64; 29]; 30]` is one short: the outer index `n-1` only ever reaches 28 in
contract while the inner index `k` reaches 29. -/
theorem n_choose_k_bug_at_29_29 :
    n_choose_k 29 29 = none ∧ n_choose_k_compute 29 29 = 1 := by
  constructor
  · decide
  · decide

/-- C5: `calc_multi_round_damage dist 1 = dist` — the one-round case is the
identity (the round loop body runs zero times). -/
theorem calc_multi_round_damage_one_round (dist : List (ℤ × ℚ)) :
    calc_multi_round_damage dist 1 = dist := rfl

/-- C9: for every `num_rounds ≤ 1`, including 0 and negative values,
`calc_multi_round_damage` returns an unmodified copy of its input map. -/
theorem calc_multi_round_damage_le_one (dist : List (ℤ × ℚ)) (num_rounds : ℤ)
    (h : num_rounds ≤ 1) : calc_multi_round_damage dist num_rounds = dist := by
  unfold calc_multi_round_damage
  rw [show (num_rounds - 1).toNat = 0 by omega]
  rfl

/-- Witness for C9 at `num_rounds = 0`. -/
theorem calc_multi_round_damage_le_one_witness :
    (0 : ℤ) ≤ 1 ∧
      calc_multi_round_damage [((3 : ℤ), (1/2 : ℚ))] 0 = [((3 : ℤ), (1/2 : ℚ))] :=
  ⟨by norm_num, calc_multi_round_damage_le_one [((3 : ℤ), (1/2 : ℚ))] 0 (by norm_num)⟩

/-- On every valid memo-table state (all-zero initially, and validity is
preserved by every call, so this covers every reachable state regardless of
which calls were made before) and every argument pair whose table index is in
bounds, the memoised `n_choose_k` completes, returns the same value as the
pure arithmetic, and leaves the table valid. -/
theorem n_choose_k_memo_refines (c : Cache) (n k : ℤ) (hc : ValidCache c)
    (h1 : 1 ≤ n) (h2 : n ≤ 30) (h3 : 0 ≤ k) (h4 : k ≤ 28) :
    ∃ c2 : Cache, n_choose_k_memo c n k = some (n_choose_k_compute n k, c2) ∧
      ValidCache c2 := by
  unfold n_choose_k_memo
  rw [if_pos ⟨h1, h2, h3, h4⟩]
  by_cases hhit : c n k ≠ 0
  · rw [if_pos hhit]
    rcases hc n k with h0 | hp
    · exact absurd h0 hhit
    · exact ⟨c, by rw [hp], hc⟩
  · rw [if_neg hhit]
    refine ⟨_, rfl, ?_⟩
    intro x y
    by_cases hxy : x = n ∧ y = k
    · obtain ⟨hx, hy⟩ := hxy
      subst hx
      subst hy
      right
      simp
    · simp only [if_neg hxy]
      exact hc x y

/-- C6 (code bug): the cache protocol itself is sound (see
`n_choose_k_memo_refines`), but the claim fails at the in-contract input
`(29, 29)`: the table index is computed and bounds-checked before the cache
is read, so — on the initial all-zero state as on any other — the memoised
`n_choose_k` panics there instead of returning the pure value
`C(29, 29) = 1`. -/
theorem n_choose_k_memo_bug_at_29_29 :
    ValidCache emptyCache ∧ n_choose_k_memo emptyCache 29 29 = none ∧
      n_choose_k_compute 29 29 = 1 :=
  ⟨fun _ _ => Or.inl rfl, rfl, by decide⟩

/-- Membership in the shield-loop range `0..=n`. -/
theorem mem_shield_range {n s : ℤ} (h : s ∈ shield_range n) :
    0 ≤ s ∧ s ≤ n := by
  unfold shield_range at h
  rw [List.mem_map] at h
  obtain ⟨i, hi, rfl⟩ := h
  rw [List.mem_range] at hi
  omega

/-- Bounds on a single shield-loop call pair `(nsd, s)` with
`s ∈ 0..=nsd`, `0 ≤ nsd ≤ 29`, `nsd ≠ 0`. -/
theorem shield_calls_bounds (nsd : ℤ) (h0 : 0 ≤ nsd) (h29 : nsd ≤ 29)
    (hz : ¬nsd = 0) (c : ℤ × ℤ)
    (hc : c ∈ (shield_range nsd).map (fun s => (nsd, s))) :
    1 ≤ c.1 ∧ c.1 ≤ 29 ∧ 0 ≤ c.2 ∧ c.2 ≤ c.1 := by
  rw [List.mem_map] at hc
  obtain ⟨s, hs, rfl⟩ := hc
  have hsr := mem_shield_range hs
  dsimp only
  refine ⟨?_, ?_, ?_, ?_⟩ <;> omega

/-- A `binomial_pmf` call completes — with value `binomial_pmf_compute` —
whenever its lookup-table index is in bounds. -/
theorem binomial_pmf_eq_some (num_trials num_successes : ℤ) (p : ℚ)
    (h1 : 1 ≤ num_trials) (h2 : num_trials ≤ 30) (h3 : 0 ≤ num_successes)
    (h4 : num_successes ≤ 28) :
    binomial_pmf num_trials num_successes p
      = some (binomial_pmf_compute num_trials num_successes p) := by
  unfold binomial_pmf n_choose_k binomial_pmf_compute
  rw [if_pos ⟨h1, h2, h3, h4⟩]
  rfl

/-- An `Option`-valued left fold whose step never fails computes the
corresponding pure fold. -/
theorem foldlM_option_congr {α σ : Type} (g : σ → α → Option σ)
    (f : σ → α → σ) (xs : List α)
    (h : ∀ s x, x ∈ xs → g s x = some (f s x)) :
    ∀ init, xs.foldlM g init = some (xs.foldl f init) := by
  induction xs with
  | nil => intro init; rfl
  | cons x xs ih =>
      intro init
      rw [List.foldlM_cons, h init x (List.mem_cons_self x xs)]
      show List.foldlM g (f init x) xs = some (List.foldl f init (x :: xs))
      rw [List.foldl_cons]
      exact ih (fun s y hy => h s y (List.mem_cons_of_mem _ hy)) (f init x)

/-- Under the bound `numShieldDice ≤ 28` for both models, every
`binomial_pmf` call of the combination loop stays within the lookup table,
so the loop completes and computes `calc_dmg_probs_core_compute`. -/
theorem calc_dmg_probs_core_eq_compute (attacker defender : Model)
    (atk_success_probs def_success_probs : List (ℤ × ℚ))
    (ha : attacker.numShieldDice ≤ 28) (hd : defender.numShieldDice ≤ 28) :
    calc_dmg_probs_core attacker defender atk_success_probs def_success_probs
      = some (calc_dmg_probs_core_compute attacker defender atk_success_probs
          def_success_probs) := by
  unfold calc_dmg_probs_core calc_dmg_probs_core_compute
  refine foldlM_option_congr _ _ _ ?_ []
  intro acc0 a _
  refine foldlM_option_congr _ _ _ ?_ acc0
  intro acc1 d _
  refine foldlM_option_congr _ _ _ ?_ acc1
  intro acc2 s hs
  by_cases h0 : (if a.1 - d.1 = 0 then (0 : ℤ)
      else (if 0 ≤ a.1 - d.1 then defender else attacker).numShieldDice) = 0
  · rw [if_pos h0, if_pos h0]
    rfl
  · have hb := mem_shield_range hs
    have h28 : (if a.1 - d.1 = 0 then (0 : ℤ)
        else (if 0 ≤ a.1 - d.1 then defender else attacker).numShieldDice)
        ≤ 28 := by
      split
      · norm_num
      · split
        · exact hd
        · exact ha
    rw [if_neg h0, if_neg h0,
      binomial_pmf_eq_some _ _ _ (by omega) (by omega) hb.1 (by omega),
      Option.map_some']

/-- The nested pure combination loops perform exactly one `add_to_map_value`
per entry of the contribution list `dmg_contribs`, in order. -/
theorem calc_dmg_probs_core_compute_eq_foldl (attacker defender : Model)
    (atk_success_probs def_success_probs : List (ℤ × ℚ)) :
    calc_dmg_probs_core_compute attacker defender atk_success_probs
        def_success_probs
      = (dmg_contribs attacker defender atk_success_probs
            def_success_probs).foldl
          (fun m p => add_to_map_value m p.1 p.2) [] := by
  unfold calc_dmg_probs_core_compute dmg_contribs
  simp only [foldl_flatMap, List.foldl_map]

/-- Counterexample to C1 as stated: the claim quantifies over every model,
but for a receiver with `numShieldDice = 29` (here the defender, against
success maps `{1 ↦ 1}` and `{0 ↦ 1}`, so `origDmg = 1 ≠ 0`) the shield loop
reaches `binomial_pmf(29, 29, 0.375)`, whose lookup-table index is out of
bounds: the combination loop panics and accumulates nothing. -/
theorem calc_dmg_probs_core_panic_cex :
    calc_dmg_probs_core ⟨1, 1, 0, 0, 0, 0, 0⟩ ⟨0, 1, 0, 0, 0, 29, 0⟩
        [((1 : ℤ), (1 : ℚ))] [((0 : ℤ), (1 : ℚ))] = none := by
  decide

/-- C1 (amended): for every attacker and defender model whose `numShieldDice`
is at most 28 (the bound forced by the lookup-table panic) and all success
maps, the combination loop of `calc_dmg_probs` completes, and the value of
the damage map it builds at any key `z` is the total mass
`atkProb * defProb * shieldProb` of all triples (attacker entry, defender
entry, shieldSuccesses) whose key
`sign(origDmg) * (max(0, max(0, |origDmg| - shieldSuccesses) - max(0, receiver.armor - giver.ap)) + giver.toxicDmg)`
equals `z` (with giver/receiver, numShieldDice and shieldProb as described by
the spec and listed by `dmg_contribs`). -/
theorem calc_dmg_probs_mass_accumulation (attacker defender : Model)
    (atk_success_probs def_success_probs : List (ℤ × ℚ))
    (ha : attacker.numShieldDice ≤ 28) (hd : defender.numShieldDice ≤ 28)
    (z : ℤ) :
    (calc_dmg_probs_core attacker defender atk_success_probs
        def_success_probs).map (fun m => map_get m z)
      = some (((dmg_contribs attacker defender atk_success_probs
            def_success_probs).map
          (fun c => if c.1 = z then c.2 else 0)).sum) := by
  rw [calc_dmg_probs_core_eq_compute attacker defender atk_success_probs
    def_success_probs ha hd, Option.map_some']
  refine congrArg some ?_
  rw [calc_dmg_probs_core_compute_eq_foldl]
  exact (map_get_foldl_add (fun p : ℤ × ℚ => p.1) (fun p : ℤ × ℚ => p.2) _ []
      z).trans (by simp [map_get])

/-- Witness for C1 (amended) at concrete models (defender with 2 shield
dice), one-point success maps and key `z = 0`. -/
theorem calc_dmg_probs_mass_accumulation_witness :
    Model.numShieldDice ⟨1, 1, 0, 0, 0, 0, 0⟩ ≤ 28 ∧
      Model.numShieldDice ⟨0, 1, 0, 0, 0, 2, 0⟩ ≤ 28 ∧
      (calc_dmg_probs_core ⟨1, 1, 0, 0, 0, 0, 0⟩ ⟨0, 1, 0, 0, 0, 2, 0⟩
          [((1 : ℤ), (1 : ℚ))] [((0 : ℤ), (1 : ℚ))]).map
          (fun m => map_get m 0)
        = some (((dmg_contribs ⟨1, 1, 0, 0, 0, 0, 0⟩ ⟨0, 1, 0, 0, 0, 2, 0⟩
              [((1 : ℤ), (1 : ℚ))] [((0 : ℤ), (1 : ℚ))]).map
            (fun c => if c.1 = 0 then c.2 else 0)).sum) :=
  ⟨by decide, by decide,
    calc_dmg_probs_mass_accumulation ⟨1, 1, 0, 0, 0, 0, 0⟩
      ⟨0, 1, 0, 0, 0, 2, 0⟩ [((1 : ℤ), (1 : ℚ))] [((0 : ℤ), (1 : ℚ))]
      (by decide) (by decide) 0⟩

/-- On success maps of any shape, every `(n, k)` pair passed to `n_choose_k`
by the combination loop satisfies `1 ≤ n ≤ 29` and `0 ≤ k ≤ n`, provided both
models have `0 ≤ numShieldDice ≤ 29`. -/
theorem n_choose_k_calls_core_in_contract (attacker defender : Model)
    (atk_success_probs def_success_probs : List (ℤ × ℚ))
    (ha0 : 0 ≤ attacker.numShieldDice) (hd0 : 0 ≤ defender.numShieldDice)
    (ha29 : attacker.numShieldDice ≤ 29) (hd29 : defender.numShieldDice ≤ 29) :
    ∀ c ∈ n_choose_k_calls attacker defender atk_success_probs
        def_success_probs,
      1 ≤ c.1 ∧ c.1 ≤ 29 ∧ 0 ≤ c.2 ∧ c.2 ≤ c.1 := by
  intro c hc
  unfold n_choose_k_calls at hc
  simp only [List.mem_flatMap] at hc
  obtain ⟨a, -, d, -, hc⟩ := hc
  split at hc
  · rw [if_pos rfl] at hc
    simp at hc
  · by_cases hz : (if 0 ≤ a.1 - d.1 then defender else attacker).numShieldDice = 0
    · rw [if_pos hz] at hc
      simp at hc
    · rw [if_neg hz] at hc
      refine shield_calls_bounds _ ?_ ?_ hz c hc
      · split
        · exact hd0
        · exact ha0
      · split
        · exact hd29
        · exact ha29

/-- C4 (amended): in every call of `calc_dmg_probs` whose models satisfy the
interface preconditions and additionally have `numShieldDice ≤ 29` (the bound
the claim is missing), every `n_choose_k` invocation made during the
computation satisfies `1 ≤ n ≤ 29` and `0 ≤ k ≤ n`. -/
theorem calc_dmg_probs_n_choose_k_in_contract (attacker defender : Model)
    (options : Options) (stream : List ℤ) (calls : List (ℤ × ℤ))
    (ha : attacker.InContract) (hd : defender.InContract)
    (hsim : 1 ≤ options.numSimulations) (hrnd : 1 ≤ options.numRounds)
    (ha29 : attacker.numShieldDice ≤ 29) (hd29 : defender.numShieldDice ≤ 29)
    (h : calc_dmg_probs_n_choose_k_calls attacker defender options stream
      = some calls) :
    ∀ c ∈ calls, 1 ≤ c.1 ∧ c.1 ≤ 29 ∧ 0 ≤ c.2 ∧ c.2 ≤ c.1 := by
  unfold calc_dmg_probs_n_choose_k_calls at h
  rw [Option.bind_eq_some] at h
  obtain ⟨ra, -, h⟩ := h
  rw [Option.map_eq_some'] at h
  obtain ⟨rd, -, rfl⟩ := h
  exact n_choose_k_calls_core_in_contract attacker defender ra.1 rd.1
    ha.2.2.2.2.2.1 hd.2.2.2.2.2.1 ha29 hd29

/-- C7: for every model with `numDice = 0` (any `diceStat` and `numRerolls`),
every `numSimulations ≥ 1` and every random stream, `make_success_probs`
returns exactly the map `{0 ↦ 1}`: each trial yields 0 successes, and the
single key 0 gets probability `numSimulations / numSimulations = 1`. -/
theorem make_success_probs_zero_dice (model : Model) (num_simulations : ℤ)
    (stream : List ℤ) (h0 : model.numDice = 0) (h1 : 1 ≤ num_simulations) :
    make_success_probs model num_simulations stream
      = some ([((0 : ℤ), (1 : ℚ))], stream) := by
  unfold make_success_probs
  rw [run_trials_zero_dice_from_empty model h0 num_simulations.toNat
    (by omega) stream]
  have hcast : ((num_simulations.toNat : ℤ) : ℚ) = (num_simulations : ℚ) := by
    rw [Int.toNat_of_nonneg (by omega)]
  have hne : (num_simulations : ℚ) ≠ 0 := by
    exact_mod_cast (by omega : num_simulations ≠ 0)
  rw [Option.map_some']
  simp only [List.map_cons, List.map_nil]
  rw [hcast, div_self hne]

/-- Witness for C7 at a concrete zero-dice model (`diceStat = 5`,
`numRerolls = 2`), `numSimulations = 3` and the empty stream. -/
theorem make_success_probs_zero_dice_witness :
    (Model.numDice ⟨0, 5, 2, 0, 0, 0, 0⟩ = 0) ∧ (1 : ℤ) ≤ 3 ∧
      make_success_probs ⟨0, 5, 2, 0, 0, 0, 0⟩ 3 []
        = some ([((0 : ℤ), (1 : ℚ))], []) :=
  ⟨rfl, by norm_num,
    make_success_probs_zero_dice ⟨0, 5, 2, 0, 0, 0, 0⟩ 3 [] rfl (by norm_num)⟩

/-- Counterexample to C4 as stated: both models satisfy the interface
preconditions (all fields non-negative, `diceStat ≥ 1`) and the options are
in range, yet a defender with `numShieldDice = 30` makes `calc_dmg_probs`
invoke `n_choose_k` with `n = 30 > 29`.  (The pip stream `[1]` gives the
attacker 1 success and the defender, with no dice, 0, so `origDmg = 1 ≠ 0`
and the shield loop runs with 30 shield dice.) -/
theorem calc_dmg_probs_n_choose_k_out_of_contract_cex :
    Model.InContract ⟨1, 1, 0, 0, 0, 0, 0⟩ ∧
      Model.InContract ⟨0, 1, 0, 0, 0, 30, 0⟩ ∧
      (1 : ℤ) ≤ 1 ∧
      calc_dmg_probs_n_choose_k_calls ⟨1, 1, 0, 0, 0, 0, 0⟩
          ⟨0, 1, 0, 0, 0, 30, 0⟩ ⟨1, 1⟩ [1]
        = some ((shield_range 30).map (fun s => ((30 : ℤ), s))) ∧
      ((30 : ℤ), (30 : ℤ)) ∈ (shield_range 30).map (fun s => ((30 : ℤ), s)) ∧
      ¬((1 : ℤ) ≤ 30 ∧ (30 : ℤ) ≤ 29 ∧ (0 : ℤ) ≤ 30 ∧ (30 : ℤ) ≤ 30) := by
  refine ⟨by decide, by decide, by norm_num, by decide, by decide, by decide⟩

/-- Witness for C4 (amended) at concrete models with `numShieldDice ≤ 29`:
the complete call list of a concrete `calc_dmg_probs` run is in contract. -/
theorem calc_dmg_probs_n_choose_k_in_contract_witness :
    Model.InContract ⟨1, 1, 0, 0, 0, 0, 0⟩ ∧
      Model.InContract ⟨0, 1, 0, 0, 0, 29, 0⟩ ∧
      (1 : ℤ) ≤ 1 ∧ (1 : ℤ) ≤ 1 ∧ (0 : ℤ) ≤ 29 ∧ (29 : ℤ) ≤ 29 ∧
      calc_dmg_probs_n_choose_k_calls ⟨1, 1, 0, 0, 0, 0, 0⟩
          ⟨0, 1, 0, 0, 0, 29, 0⟩ ⟨1, 1⟩ [1]
        = some ((shield_range 29).map (fun s => ((29 : ℤ), s))) ∧
      ∀ c ∈ (shield_range 29).map (fun s => ((29 : ℤ), s)),
        1 ≤ c.1 ∧ c.1 ≤ 29 ∧ 0 ≤ c.2 ∧ c.2 ≤ c.1 := by
  have hq : calc_dmg_probs_n_choose_k_calls ⟨1, 1, 0, 0, 0, 0, 0⟩
      ⟨0, 1, 0, 0, 0, 29, 0⟩ ⟨1, 1⟩ [1]
      = some ((shield_range 29).map (fun s => ((29 : ℤ), s))) := by decide
  exact ⟨by decide, by decide, by norm_num, by norm_num, by norm_num,
    by norm_num, hq,
    calc_dmg_probs_n_choose_k_in_contract ⟨1, 1, 0, 0, 0, 0, 0⟩
      ⟨0, 1, 0, 0, 0, 29, 0⟩ ⟨1, 1⟩ [1] _ (by decide) (by decide) (by norm_num)
      (by norm_num) (by decide) (by decide) hq⟩

/-- C8: for every `numDice`, `diceStat`, random stream and `numRerolls > 0`,
`simulated_num_successes_from_multi_roll` returns the successes of the
`numDice` original dice plus the successes of a simulation of
`min(numRerolls, totalFailures)` further dice that itself performs no rerolls
(the reroll budget is forced to 0, so rerolled dice are never rerolled
again); when `numRerolls = 0` it returns only the original successes. -/
theorem simulated_num_successes_reroll_spec
    (num_dice dice_stat num_rerolls : ℤ) (stream : List ℤ) :
    (0 < num_rerolls →
      simulated_num_successes_from_multi_roll num_dice dice_stat num_rerolls
          stream
        = (roll_n dice_stat num_dice.toNat stream).bind (fun r =>
            (roll_n dice_stat (min num_rerolls r.1.f).toNat r.2).map
              (fun r2 => (r.1.s + r2.1.s, r2.2)))) ∧
    (num_rerolls = 0 →
      simulated_num_successes_from_multi_roll num_dice dice_stat num_rerolls
          stream
        = (roll_n dice_stat num_dice.toNat stream).map
            (fun r => (r.1.s, r.2))) := by
  constructor
  · intro h
    unfold simulated_num_successes_from_multi_roll
    have hne : ¬(num_rerolls = 0) := by omega
    simp only [hne, if_false]
    refine congrArg _ ?_
    funext r
    unfold multi_roll_no_reroll
    rw [Option.map_map]
    rfl
  · intro h
    subst h
    rw [simulated_num_successes_from_multi_roll_zero_rerolls]
    rfl

/-- Witness for C8 with 2 dice against threshold 4, stream `[3, 5, 2, 7]`,
at `numRerolls = 1` (first conjunct) and `numRerolls = 0` (second). -/
theorem simulated_num_successes_reroll_spec_witness :
    ((0 : ℤ) < 1 ∧
      simulated_num_successes_from_multi_roll 2 4 1 [3, 5, 2, 7]
        = (roll_n 4 (2 : ℤ).toNat [3, 5, 2, 7]).bind (fun r =>
            (roll_n 4 (min 1 r.1.f).toNat r.2).map
              (fun r2 => (r.1.s + r2.1.s, r2.2)))) ∧
    ((0 : ℤ) = 0 ∧
      simulated_num_successes_from_multi_roll 2 4 0 [3, 5, 2, 7]
        = (roll_n 4 (2 : ℤ).toNat [3, 5, 2, 7]).map (fun r => (r.1.s, r.2))) :=
  ⟨⟨by norm_num,
    (simulated_num_successes_reroll_spec 2 4 1 [3, 5, 2, 7]).1 (by norm_num)⟩,
   ⟨rfl, (simulated_num_successes_reroll_spec 2 4 0 [3, 5, 2, 7]).2 rfl⟩⟩

/-- C10: for every `dice_stat` and every pip stream containing a face other
than the maximal face `PIP_HI = 8`, the exploding-die loop terminates,
consuming the leading run of maximal faces plus the first non-maximal draw
(`t + 1` draws, where `t` is the length of the run, so at least one and at
most all of the stream); it returns the tally counting every consumed draw
`≥ dice_stat` in `s` and every other consumed draw in `f`, so `s + f` equals
the number of draws consumed, together with the unconsumed stream suffix. -/
theorem simulated_sf_from_single_roll_spec (dice_stat : ℤ) (l : List ℤ)
    (h : ∃ x ∈ l, x ≠ PIP_HI) :
    simulated_sf_from_single_roll dice_stat l
        = some
          (⟨((l.take ((l.takeWhile (fun p => decide (p = PIP_HI))).length
                  + 1)).countP (fun p => decide (dice_stat ≤ p)) : ℕ),
            ((l.take ((l.takeWhile (fun p => decide (p = PIP_HI))).length
                  + 1)).countP (fun p => decide (p < dice_stat)) : ℕ)⟩,
           l.drop ((l.takeWhile (fun p => decide (p = PIP_HI))).length + 1))
      ∧ (l.takeWhile (fun p => decide (p = PIP_HI))).length + 1 ≤ l.length
      ∧ (l.take ((l.takeWhile (fun p => decide (p = PIP_HI))).length
              + 1)).countP (fun p => decide (dice_stat ≤ p))
          + (l.take ((l.takeWhile (fun p => decide (p = PIP_HI))).length
              + 1)).countP (fun p => decide (p < dice_stat))
        = (l.takeWhile (fun p => decide (p = PIP_HI))).length + 1 := by
  obtain ⟨h1, h2⟩ := simulated_sf_from_single_roll_run dice_stat l h
  refine ⟨h1, h2, ?_⟩
  rw [countP_le_add_countP_lt, List.length_take]
  omega

/-- Witness for C10 at `dice_stat = 4` and stream `[8, 3]`: the die explodes
once and stops at the second draw. -/
theorem simulated_sf_from_single_roll_spec_witness :
    (∃ x ∈ [(8 : ℤ), 3], x ≠ PIP_HI) ∧
      (simulated_sf_from_single_roll 4 [(8 : ℤ), 3]
          = some
            (⟨(([(8 : ℤ), 3].take
                    (([(8 : ℤ), 3].takeWhile
                        (fun p => decide (p = PIP_HI))).length
                      + 1)).countP (fun p => decide ((4 : ℤ) ≤ p)) : ℕ),
              (([(8 : ℤ), 3].take
                    (([(8 : ℤ), 3].takeWhile
                        (fun p => decide (p = PIP_HI))).length
                      + 1)).countP (fun p => decide (p < (4 : ℤ))) : ℕ)⟩,
             [(8 : ℤ), 3].drop
               (([(8 : ℤ), 3].takeWhile (fun p => decide (p = PIP_HI))).length
                 + 1))
        ∧ ([(8 : ℤ), 3].takeWhile (fun p => decide (p = PIP_HI))).length + 1
            ≤ [(8 : ℤ), 3].length
        ∧ ([(8 : ℤ), 3].take
              (([(8 : ℤ), 3].takeWhile (fun p => decide (p = PIP_HI))).length
                + 1)).countP (fun p => decide ((4 : ℤ) ≤ p))
            + ([(8 : ℤ), 3].take
                (([(8 : ℤ), 3].takeWhile
                    (fun p => decide (p = PIP_HI))).length
                  + 1)).countP (fun p => decide (p < (4 : ℤ)))
          = ([(8 : ℤ), 3].takeWhile (fun p => decide (p = PIP_HI))).length
              + 1) :=
  ⟨by decide, simulated_sf_from_single_roll_spec 4 [(8 : ℤ), 3] (by decide)⟩

/-- Counterexample to C3 as stated: for the input map `{0 ↦ 2}` (sum of
values 2) and `numRounds = 2 ≥ 1`, the output of `calc_multi_round_damage`
sums to 4, not 2: mass is only conserved for inputs that sum to 1. -/
theorem calc_multi_round_damage_sum_cex :
    (1 : ℤ) ≤ 2 ∧
      sum_values (calc_multi_round_damage [((0 : ℤ), (2 : ℚ))] 2)
        ≠ sum_values [((0 : ℤ), (2 : ℚ))] := by
  constructor
  · norm_num
  · norm_num [calc_multi_round_damage, multi_round_iter, one_round_conv,
      add_to_map_value, sum_values]

/-- C3 (amended): for every input map whose values sum to 1 (a probability
distribution) and every `numRounds ≥ 1`, the values of
`calc_multi_round_damage` sum to the same total as the input's values.
In general the output total is the input total raised to `numRounds`. -/
theorem calc_multi_round_damage_mass_conservation (dist : List (ℤ × ℚ))
    (num_rounds : ℤ) (hdist : sum_values dist = 1) (h : 1 ≤ num_rounds) :
    sum_values (calc_multi_round_damage dist num_rounds) = sum_values dist := by
  unfold calc_multi_round_damage
  rw [sum_values_multi_round_iter, hdist, one_pow]

/-- Witness for C3 (amended) at the two-point distribution
`{0 ↦ 1/2, 3 ↦ 1/2}` and `numRounds = 2`. -/
theorem calc_multi_round_damage_mass_conservation_witness :
    sum_values [((0 : ℤ), (1/2 : ℚ)), ((3 : ℤ), (1/2 : ℚ))] = 1 ∧ (1 : ℤ) ≤ 2 ∧
      sum_values
          (calc_multi_round_damage
            [((0 : ℤ), (1/2 : ℚ)), ((3 : ℤ), (1/2 : ℚ))] 2)
        = sum_values [((0 : ℤ), (1/2 : ℚ)), ((3 : ℤ), (1/2 : ℚ))] :=
  ⟨by norm_num [sum_values], by norm_num,
    calc_multi_round_damage_mass_conservation
      [((0 : ℤ), (1/2 : ℚ)), ((3 : ℤ), (1/2 : ℚ))] 2 (by norm_num [sum_values])
      (by norm_num)⟩

end DiceSim
